import Mathlib

/-!
Verification development for the Bitx configuration-resolution core.

Shallow embedding of the functions in
src/services/roo-config/index.ts (path resolution, subfolder
discovery, configuration loading/merging) and of the write-protection
classifier RooProtectedController (whose implementation is not in the
repository snapshot; it is modelled from the specification, with the
concrete pattern list taken from the repository's own test
expectations).

Modelling conventions:
- Node's asynchronous filesystem is embedded as an oracle
  String -> Except String String mapping a file path to either its text
  content or the error code the read rejects with (such as ENOENT or
  EACCES).  A thrown/rejected error is an Except.error value.
- The external ripgrep enumerator is embedded as a value of type
  Except String (List String): either the list of result paths or a
  raised failure.
- os.homedir() is passed in as an explicit homedir argument.
- Node's path.join is modelled as posix separator concatenation
  (no dot-segment normalization), and path.dirname as stripping the
  final path segment.  None of the verified properties depend on
  dot-segment normalization.
-/

/-- Model of Node path.join for two components: posix separator
concatenation. -/
def joinPath (a b : String) : String := a ++ "/" ++ b

/-- Model of Node path.dirname (posix): everything before the last
separator; "." when there is no separator, "/" when the last separator
is leading. -/
def dirname (p : String) : String :=
  let afterName := p.data.reverse.dropWhile (fun c => c != '/')
  match afterName with
  | [] => "."
  | _ :: rest => if rest.isEmpty then "/" else ⟨rest.reverse⟩

/-- getGlobalRooDirectory from src/services/roo-config/index.ts:
the global .bitx directory under the home directory (os.homedir() is
the explicit homedir argument). -/
def getGlobalRooDirectory (homedir : String) : String :=
  joinPath homedir ".bitx"

/-- getProjectRooDirectoryForCwd from src/services/roo-config/index.ts:
the project-local .bitx directory for a given cwd. -/
def getProjectRooDirectoryForCwd (cwd : String) : String :=
  joinPath cwd ".bitx"

/-- Filesystem oracle: maps a path to the text read, or to the error
code of the rejected read. -/
abbrev FileSystem := String → Except String String

/-- The error codes treated as benign by readFileIfExists
(the condition on error.code at src/services/roo-config/index.ts:106). -/
def isBenignReadError (code : String) : Bool :=
  code == "ENOENT" || code == "ENOTDIR" || code == "EISDIR"

/-- readFileIfExists from src/services/roo-config/index.ts: returns the
content, none when the read fails with ENOENT/ENOTDIR/EISDIR, and
re-raises any other error. -/
def readFileIfExists (fs : FileSystem) (filePath : String) :
    Except String (Option String) :=
  match fs filePath with
  | .ok content => .ok (some content)
  | .error code =>
    if isBenignReadError code then .ok none else .error code

/-- Separator characters accepted by the discovery regex
(forward slash and backslash). -/
def isSep (c : Char) : Bool := c == '/' || c == '\\'

/-- Does the character list begin with a separator, the literal
".bitx", and another separator?  This is the tail of the regex
(the part after the lazy group) at src/services/roo-config/index.ts:179. -/
def rooMarkerAt (l : List Char) : Bool :=
  match l with
  | c :: rest =>
    isSep c && (['.', 'b', 'i', 't', 'x'].isPrefixOf rest) &&
      (match rest.drop 5 with
       | d :: _ => isSep d
       | [] => false)
  | [] => false

/-- Scanner for the anchored lazy regex match: at each position (left
to right) with a nonempty consumed group, test for the
separator-".bitx"-separator marker and return the group on the first
hit; a newline cannot be consumed by the dot, so it aborts the match. -/
def scanRooSub (taken rest : List Char) : Option (List Char) :=
  match rest with
  | [] => none
  | c :: cs =>
    if taken ≠ [] && rooMarkerAt (c :: cs) then some taken
    else if c = '\n' then none
    else scanRooSub (taken ++ [c]) cs

/-- The regex capture at src/services/roo-config/index.ts:179: the
subfolder part of a result path of the shape
"subfolder/.bitx/anything" (with either separator), if any. -/
def matchRooSub (p : String) : Option String :=
  (scanRooSub [] p.data).map (fun l => ⟨l⟩)

/-- One step of the discovery loop at
src/services/roo-config/index.ts:176-187: join the captured subfolder
with cwd and ".bitx" and add it to the accumulated set (kept as a
duplicate-free list) unless it is the root .bitx directory. -/
def addRooDir (rootRooDir cwd : String) (acc : List String) (r : String) :
    List String :=
  match matchRooSub r with
  | some sub =>
    if joinPath (joinPath cwd sub) ".bitx" ≠ rootRooDir ∧
        joinPath (joinPath cwd sub) ".bitx" ∉ acc then
      acc ++ [joinPath (joinPath cwd sub) ".bitx"]
    else acc
  | none => acc

/-- discoverSubfolderRooDirectories from
src/services/roo-config/index.ts: extracts the .bitx directories named
by the ripgrep results, excludes the root .bitx directory,
deduplicates, sorts alphabetically, and degrades to the empty list on
any enumerator failure. -/
def discoverSubfolderRooDirectories (cwd : String)
    (rg : Except String (List String)) : List String :=
  match rg with
  | .error _ => []
  | .ok results =>
    List.insertionSort (· ≤ ·)
      (results.foldl (addRooDir (joinPath cwd ".bitx") cwd) [])

/-- getRooDirectoriesForCwd from src/services/roo-config/index.ts:
global directory first, then the project-local directory. -/
def getRooDirectoriesForCwd (homedir cwd : String) : List String :=
  [getGlobalRooDirectory homedir, getProjectRooDirectoryForCwd cwd]

/-- getAllRooDirectoriesForCwd from src/services/roo-config/index.ts:
global, then project-local, then the discovered subfolder directories. -/
def getAllRooDirectoriesForCwd (homedir cwd : String)
    (rg : Except String (List String)) : List String :=
  [getGlobalRooDirectory homedir, getProjectRooDirectoryForCwd cwd] ++
    discoverSubfolderRooDirectories cwd rg

/-- getAgentsDirectoriesForCwd from src/services/roo-config/index.ts:
the workspace root, then the parent directory of every discovered
subfolder .bitx directory, in discovery order. -/
def getAgentsDirectoriesForCwd (cwd : String)
    (rg : Except String (List String)) : List String :=
  cwd :: (discoverSubfolderRooDirectories cwd rg).map dirname

/-- Result shape of loadConfiguration. -/
structure RooConfigResult where
  global : Option String
  project : Option String
  merged : String
deriving DecidableEq, Repr

/-- JavaScript truthiness of a string: false exactly on the empty
string. -/
def truthy (s : String) : Bool := s != ""

/-- JavaScript truthiness of a nullable string: false on null and on
the empty string. -/
def truthyOpt : Option String → Bool
  | none => false
  | some s => truthy s

/-- The annotation label inserted between global and project content at
src/services/roo-config/index.ts:387. -/
def projectSeparatorLabel : String :=
  "\n\n# Project-specific rules (override global):\n\n"

/-- loadConfiguration from src/services/roo-config/index.ts: reads the
relative path under the global and the project .bitx directories
(benign read failures become null, others are re-raised), then builds
the merged text with the truthiness-guarded concatenation of lines
379-396. -/
def loadConfiguration (relativePath cwd homedir : String)
    (fs : FileSystem) : Except String RooConfigResult :=
  let globalDir := getGlobalRooDirectory homedir
  let projectDir := getProjectRooDirectoryForCwd cwd
  let globalFilePath := joinPath globalDir relativePath
  let projectFilePath := joinPath projectDir relativePath
  match readFileIfExists fs globalFilePath with
  | .error e => .error e
  | .ok globalContent =>
    match readFileIfExists fs projectFilePath with
    | .error e => .error e
    | .ok projectContent =>
      let merged := ""
      let merged :=
        if truthyOpt globalContent then merged ++ globalContent.getD ""
        else merged
      let merged :=
        if truthyOpt projectContent then
          (if truthy merged then merged ++ projectSeparatorLabel else merged)
            ++ projectContent.getD ""
        else merged
      .ok { global := globalContent, project := projectContent,
            merged := if truthy merged then merged else "" }

/-- loadRooConfiguration, the backward-compatibility alias of
loadConfiguration. -/
def loadRooConfiguration (relativePath cwd homedir : String)
    (fs : FileSystem) : Except String RooConfigResult :=
  loadConfiguration relativePath cwd homedir fs

/-- Modelled from the spec: the fixed protection pattern set of the
ProtectionMatcher (RooProtectedController.getProtectedPatterns, whose
implementation file is absent from the snapshot); the concrete strings
are the ones asserted by the repository's RooProtectedController test. -/
def protectedPatterns : List String :=
  [".rooignore", ".roomodes", ".roorules*", ".clinerules*", ".bitx/**",
   ".vscode/**", "*.code-workspace", ".rooprotected", "AGENTS.md",
   "AGENT.md"]

/-- Modelled from the spec: separator normalization - every backslash
becomes a forward slash. -/
def normChar (c : Char) : Char := if c = '\\' then '/' else c

/-- Modelled from the spec: normalize all separators of a path to the
canonical forward slash. -/
def normalizeSepsL (l : List Char) : List Char := l.map normChar

/-- Modelled from the spec: split a normalized path into its
slash-separated segments. -/
def splitSegs : List Char → List (List Char)
  | [] => [[]]
  | c :: rest =>
    if c = '/' then [] :: splitSegs rest
    else
      match splitSegs rest with
      | [] => [[c]]
      | s :: ss => (c :: s) :: ss

/-- Modelled from the spec: glob match of one pattern segment against
one path segment; the single-level wildcard star matches any run of
characters within the segment. -/
def globSeg : List Char → List Char → Bool
  | [], s => s.isEmpty
  | '*' :: ps, s => s.tails.any (fun t => globSeg ps t)
  | _ :: _, [] => false
  | p :: ps, c :: cs => p == c && globSeg ps cs

/-- Modelled from the spec: match a list of pattern segments against a
list of path segments; the multi-level wildcard double-star segment
matches any (possibly empty) run of path segments. -/
def segsMatch : List (List Char) → List (List Char) → Bool
  | [], ss => ss.isEmpty
  | p :: ps, ss =>
    if p = ['*', '*'] then ss.tails.any (fun t => segsMatch ps t)
    else
      match ss with
      | [] => false
      | s :: ts => globSeg p s && segsMatch ps ts

/-- Modelled from the spec: match one protection pattern against a
normalized path.  A pattern with a leading separator is anchored at the
root; a pattern without one matches the trailing segments of the path
at any depth. -/
def matchesPatternL (pat p : List Char) : Bool :=
  match pat with
  | '/' :: rest => segsMatch (splitSegs rest) (splitSegs p)
  | _ => (splitSegs p).tails.any (fun t => segsMatch (splitSegs pat) t)

/-- Modelled from the spec: is a normalized path absolute
(leading forward slash)? -/
def isAbsoluteL : List Char → Bool
  | c :: _ => c == '/'
  | [] => false

/-- Modelled from the spec: an absolute path lying under the workspace
root is rewritten to its root-relative form; anything else is kept
as-is. -/
def relativizeToRootL (ncwd np : List Char) : List Char :=
  if isAbsoluteL np && (ncwd ++ ['/']).isPrefixOf np then
    np.drop (ncwd.length + 1)
  else np

/-- Modelled from the spec: RooProtectedController.isWriteProtected -
normalize separators, rewrite an absolute path under the workspace
root to root-relative form, then test the ten protection patterns with
OR semantics. -/
def isWriteProtected (cwd p : String) : Bool :=
  protectedPatterns.any (fun pat =>
    matchesPatternL pat.data
      (relativizeToRootL (normalizeSepsL cwd.data) (normalizeSepsL p.data)))

/-- An annotated path, as produced by annotatePathsWithProtection. -/
structure PathProtection where
  path : String
  isProtected : Bool
deriving DecidableEq, Repr

/-- Modelled from the spec:
RooProtectedController.annotatePathsWithProtection - annotate every
input path, in order, with its protection status, keeping the original
string. -/
def annotatePathsWithProtection (cwd : String) (paths : List String) :
    List PathProtection :=
  paths.map (fun p => { path := p, isProtected := isWriteProtected cwd p })

/-- Modelled from the spec: RooProtectedController.getProtectedFiles -
the subset of the input paths that are write-protected (set semantics,
represented as the filtered list of original strings). -/
def getProtectedFiles (cwd : String) (paths : List String) : List String :=
  paths.filter (fun p => isWriteProtected cwd p)

/-- Fixture filesystem: every read rejects with ENOENT. -/
def fsAbsentAll : FileSystem := fun _ => .error "ENOENT"

/-- Fixture filesystem: every read rejects with EACCES. -/
def fsPermAll : FileSystem := fun _ => .error "EACCES"

/-- Fixture filesystem: the project rules file rejects with EACCES,
everything else with ENOENT. -/
def fsProjectPerm : FileSystem := fun p =>
  if p = "/project/path/.bitx/rules/rules.md" then .error "EACCES"
  else .error "ENOENT"

/-- Fixture filesystem: global rules file has empty content, project
rules file has text, everything else is absent. -/
def fsEmptyGlobal : FileSystem := fun p =>
  if p = "/mock/home/.bitx/rules/rules.md" then .ok ""
  else if p = "/project/path/.bitx/rules/rules.md" then .ok "project content"
  else .error "ENOENT"

/-- Fixture filesystem: global and project rules files both present
with text, everything else absent. -/
def fsBothPresent : FileSystem := fun p =>
  if p = "/mock/home/.bitx/rules/rules.md" then .ok "global content"
  else if p = "/project/path/.bitx/rules/rules.md" then .ok "project content"
  else .error "ENOENT"

/-- Fixture filesystem: global rules file has text, project rules file
has empty content, everything else absent. -/
def fsEmptyProject : FileSystem := fun p =>
  if p = "/mock/home/.bitx/rules/rules.md" then .ok "global content"
  else if p = "/project/path/.bitx/rules/rules.md" then .ok ""
  else .error "ENOENT"

/-- Auxiliary: prepending the empty string is the identity. -/
theorem str_empty_append (s : String) : "" ++ s = s := by
  simp

/-- Auxiliary: a concatenation whose left part is nonempty is nonempty. -/
theorem str_append_ne_empty_left (a b : String) (h : a ≠ "") :
    a ++ b ≠ "" := by
  intro hc
  apply h
  have hd := congrArg String.data hc
  rw [String.data_append] at hd
  rcases List.append_eq_nil.mp hd with ⟨ha, _⟩
  exact String.ext ha

/-- Auxiliary: truthiness of a provably nonempty string. -/
theorem truthy_of_ne (s : String) (h : s ≠ "") : truthy s = true := by
  simpa [truthy] using h

/-- Auxiliary: every element accumulated by the discovery loop is
either inherited from the initial accumulator or differs from the root
.bitx directory. -/
theorem mem_foldl_addRooDir (root cwd : String) :
    ∀ (results acc : List String) (x : String),
      x ∈ results.foldl (addRooDir root cwd) acc → x ∈ acc ∨ x ≠ root := by
  intro results
  induction results with
  | nil =>
    intro acc x hx
    exact Or.inl hx
  | cons r rs ih =>
    intro acc x hx
    rw [List.foldl_cons] at hx
    rcases ih (addRooDir root cwd acc r) x hx with hmem | hne
    · rcases hsub : matchRooSub r with _ | sub
      · simp only [addRooDir, hsub] at hmem
        exact Or.inl hmem
      · simp only [addRooDir, hsub] at hmem
        by_cases hcond : joinPath (joinPath cwd sub) ".bitx" ≠ root ∧
            joinPath (joinPath cwd sub) ".bitx" ∉ acc
        · rw [if_pos hcond] at hmem
          rcases List.mem_append.mp hmem with h | h
          · exact Or.inl h
          · rw [List.mem_singleton] at h
            subst h
            exact Or.inr hcond.1
        · rw [if_neg hcond] at hmem
          exact Or.inl hmem
    · exact Or.inr hne

/-- Auxiliary: the discovery loop preserves freedom from duplicates. -/
theorem nodup_foldl_addRooDir (root cwd : String) :
    ∀ (results acc : List String), acc.Nodup →
      (results.foldl (addRooDir root cwd) acc).Nodup := by
  intro results
  induction results with
  | nil =>
    intro acc h
    exact h
  | cons r rs ih =>
    intro acc h
    rw [List.foldl_cons]
    apply ih
    rcases hsub : matchRooSub r with _ | sub
    · simp only [addRooDir, hsub]
      exact h
    · simp only [addRooDir, hsub]
      by_cases hcond : joinPath (joinPath cwd sub) ".bitx" ≠ root ∧
          joinPath (joinPath cwd sub) ".bitx" ∉ acc
      · rw [if_pos hcond, List.nodup_append]
        exact ⟨h, List.nodup_singleton _, List.disjoint_singleton.mpr hcond.2⟩
      · rw [if_neg hcond]
        exact h

/-- C4: any failure of the external enumerator makes
discoverSubfolderRooDirectories return the empty list instead of
propagating the error. -/
theorem c4_discovery_failure_yields_empty (cwd msg : String) :
    discoverSubfolderRooDirectories cwd (Except.error msg) = [] := rfl

/-- C3: the discovered subfolder directory list never contains the
project-root .bitx directory, has no duplicates, and is strictly
lexicographically ascending. -/
theorem c3_discovery_no_root_nodup_sorted (cwd : String)
    (rg : Except String (List String)) :
    getProjectRooDirectoryForCwd cwd ∉ discoverSubfolderRooDirectories cwd rg
    ∧ (discoverSubfolderRooDirectories cwd rg).Nodup
    ∧ (discoverSubfolderRooDirectories cwd rg).Pairwise (· < ·) := by
  cases rg with
  | error e =>
    refine ⟨?_, ?_, ?_⟩ <;> simp [discoverSubfolderRooDirectories]
  | ok results =>
    have hperm := List.perm_insertionSort (α := String) (· ≤ ·)
      (results.foldl (addRooDir (joinPath cwd ".bitx") cwd) [])
    have hres : discoverSubfolderRooDirectories cwd (Except.ok results) =
        List.insertionSort (· ≤ ·)
          (results.foldl (addRooDir (joinPath cwd ".bitx") cwd) []) := rfl
    have hnotmem : joinPath cwd ".bitx" ∉
        results.foldl (addRooDir (joinPath cwd ".bitx") cwd) [] := by
      intro hmem
      rcases mem_foldl_addRooDir (joinPath cwd ".bitx") cwd results [] _ hmem with
        h | h
      · exact List.not_mem_nil _ h
      · exact h rfl
    have hnodupBase := nodup_foldl_addRooDir (joinPath cwd ".bitx") cwd results []
      List.nodup_nil
    have hnodup : (discoverSubfolderRooDirectories cwd (Except.ok results)).Nodup := by
      rw [hres]
      exact hperm.nodup_iff.mpr hnodupBase
    have hsorted : (discoverSubfolderRooDirectories cwd (Except.ok results)).Pairwise
        (· ≤ ·) := by
      rw [hres]
      exact List.sorted_insertionSort (· ≤ ·) _
    refine ⟨?_, hnodup, ?_⟩
    · intro hmem
      rw [hres] at hmem
      exact hnotmem (hperm.mem_iff.mp hmem)
    · exact (hsorted.and hnodup).imp (fun h => lt_of_le_of_ne h.1 h.2)

/-- C6: getAllRooDirectoriesForCwd is exactly the global directory,
then the project directory, then the discovered subfolder directories,
so its length is two plus the number of discovered directories. -/
theorem c6_all_directories_shape (homedir cwd : String)
    (rg : Except String (List String)) :
    getAllRooDirectoriesForCwd homedir cwd rg =
      [getGlobalRooDirectory homedir, getProjectRooDirectoryForCwd cwd] ++
        discoverSubfolderRooDirectories cwd rg
    ∧ (getAllRooDirectoriesForCwd homedir cwd rg).length =
        2 + (discoverSubfolderRooDirectories cwd rg).length := by
  refine ⟨rfl, ?_⟩
  simp [getAllRooDirectoriesForCwd]
  omega

/-- C7: getAgentsDirectoriesForCwd starts with the workspace root
(also when discovery is empty) and continues with exactly the parent
directory of each discovered subfolder .bitx directory, in discovery
order. -/
theorem c7_agents_directories_shape (cwd : String)
    (rg : Except String (List String)) :
    (getAgentsDirectoriesForCwd cwd rg).head? = some cwd
    ∧ (getAgentsDirectoriesForCwd cwd rg).tail =
        (discoverSubfolderRooDirectories cwd rg).map dirname := by
  exact ⟨rfl, rfl⟩

/-- C8: annotatePathsWithProtection preserves length and order, and
the element at every index pairs the original path string with its
isWriteProtected classification. -/
theorem c8_annotate_preserves_paths (cwd : String) (l : List String) (i : Nat) :
    (annotatePathsWithProtection cwd l).length = l.length
    ∧ (annotatePathsWithProtection cwd l)[i]? =
        (l[i]?).map
          (fun p => { path := p, isProtected := isWriteProtected cwd p }) := by
  constructor
  · simp [annotatePathsWithProtection]
  · simp [annotatePathsWithProtection]

/-- C9: the exact ignore-file name is protected at the root and
nested; names that merely extend an exact-name pattern are not
protected; ordinary source paths are not protected. -/
theorem c9_exact_name_patterns :
    isWriteProtected "/test/workspace" ".rooignore" = true
    ∧ isWriteProtected "/test/workspace" "nested/.rooignore" = true
    ∧ isWriteProtected "/test/workspace" ".rooignorex" = false
    ∧ isWriteProtected "/test/workspace" ".roosettings" = false
    ∧ isWriteProtected "/test/workspace" "src/index.ts" = false := by
  decide

/-- C1 counterexample: with the global source present but empty and the
project source present with text, loadConfiguration returns the project
text alone as merged, not the claimed concatenation with the
override-annotation label. -/
theorem c1_counterexample :
    loadConfiguration "rules/rules.md" "/project/path" "/mock/home" fsEmptyGlobal =
      Except.ok { global := some "", project := some "project content",
                  merged := "project content" }
    ∧ ("project content" : String) ≠
        "" ++ "\n\n# Project-specific rules (override global):\n\n" ++
          "project content" := by
  constructor
  · rfl
  · decide

/-- C1 (amended): for optional texts read by loadConfiguration in which
every present text is nonempty, the result carries the texts read
verbatim and merged is empty when neither is present, the present text
verbatim when exactly one is present, and the label-separated
concatenation when both are present. -/
theorem c1_amended_merge (relativePath cwd homedir : String)
    (fs : FileSystem) (g p : Option String)
    (hg : readFileIfExists fs
      (joinPath (getGlobalRooDirectory homedir) relativePath) = .ok g)
    (hp : readFileIfExists fs
      (joinPath (getProjectRooDirectoryForCwd cwd) relativePath) = .ok p)
    (hgne : g ≠ some "") (hpne : p ≠ some "") :
    loadConfiguration relativePath cwd homedir fs =
      .ok { global := g, project := p,
            merged :=
              match g, p with
              | none, none => ""
              | some gs, none => gs
              | none, some ps => ps
              | some gs, some ps =>
                gs ++ "\n\n# Project-specific rules (override global):\n\n"
                  ++ ps } := by
  simp only [loadConfiguration, hg, hp]
  cases g with
  | none =>
    cases p with
    | none =>
      simp [truthyOpt, truthy]
    | some ps =>
      have hps : ps ≠ "" := fun h => hpne (by rw [h])
      simp [truthyOpt, truthy, hps]
  | some gs =>
    have hgs : gs ≠ "" := fun h => hgne (by rw [h])
    cases p with
    | none =>
      simp [truthyOpt, truthy, hgs]
    | some ps =>
      have hps : ps ≠ "" := fun h => hpne (by rw [h])
      simp [truthyOpt, truthy, projectSeparatorLabel, hgs, hps]
      intro h
      exact absurd h (str_append_ne_empty_left _ _
        (str_append_ne_empty_left _ _ hgs))

/-- C1 (amended) witness: with both rules files present and nonempty,
loadConfiguration returns both texts and the label-separated merge. -/
theorem c1_amended_merge_witness :
    loadConfiguration "rules/rules.md" "/project/path" "/mock/home"
        fsBothPresent =
      Except.ok { global := some "global content",
                  project := some "project content",
                  merged := "global content" ++
                    "\n\n# Project-specific rules (override global):\n\n" ++
                    "project content" } :=
  c1_amended_merge "rules/rules.md" "/project/path" "/mock/home" fsBothPresent
    (some "global content") (some "project content") rfl rfl
    (by decide) (by decide)

/-- C2: per-source reads that fail with ENOENT, ENOTDIR or EISDIR
yield null and are never raised; any other read failure is propagated
by loadConfiguration, which then aborts with the raised error code and
produces no result at all (the Except.error carries no partial
{global, project, merged} value). -/
theorem c2_read_error_policy (relativePath cwd homedir : String)
    (fs : FileSystem) :
    (∀ fp code, fs fp = .error code → isBenignReadError code = true →
      readFileIfExists fs fp = .ok none)
    ∧ (∀ fp code, fs fp = .error code → isBenignReadError code = false →
      readFileIfExists fs fp = .error code)
    ∧ (∀ code, isBenignReadError code = false →
      fs (joinPath (getGlobalRooDirectory homedir) relativePath) = .error code →
      loadConfiguration relativePath cwd homedir fs = .error code)
    ∧ (∀ code g, isBenignReadError code = false →
      readFileIfExists fs
        (joinPath (getGlobalRooDirectory homedir) relativePath) = .ok g →
      fs (joinPath (getProjectRooDirectoryForCwd cwd) relativePath) =
        .error code →
      loadConfiguration relativePath cwd homedir fs = .error code) := by
  refine ⟨?_, ?_, ?_, ?_⟩
  · intro fp code herr hben
    simp [readFileIfExists, herr, hben]
  · intro fp code herr hben
    simp [readFileIfExists, herr, hben]
  · intro code hben herr
    have hread : readFileIfExists fs
        (joinPath (getGlobalRooDirectory homedir) relativePath) =
        .error code := by
      simp [readFileIfExists, herr, hben]
    simp [loadConfiguration, hread]
  · intro code g hben hg herr
    have hread : readFileIfExists fs
        (joinPath (getProjectRooDirectoryForCwd cwd) relativePath) =
        .error code := by
      simp [readFileIfExists, herr, hben]
    simp [loadConfiguration, hg, hread]

/-- C2 witness: concrete benign and non-benign failures - an ENOENT
read yields null, an EACCES read is re-raised, and loadConfiguration
aborts with EACCES whether the global or the project read is the one
denied. -/
theorem c2_read_error_policy_witness :
    readFileIfExists fsAbsentAll "/mock/home/.bitx/rules/rules.md" = .ok none
    ∧ readFileIfExists fsPermAll "/mock/home/.bitx/rules/rules.md" =
        .error "EACCES"
    ∧ loadConfiguration "rules/rules.md" "/project/path" "/mock/home"
        fsPermAll = .error "EACCES"
    ∧ loadConfiguration "rules/rules.md" "/project/path" "/mock/home"
        fsProjectPerm = .error "EACCES" := by
  refine ⟨?_, ?_, ?_, ?_⟩
  · exact (c2_read_error_policy "rules/rules.md" "/project/path" "/mock/home"
      fsAbsentAll).1 "/mock/home/.bitx/rules/rules.md" "ENOENT" rfl rfl
  · exact (c2_read_error_policy "rules/rules.md" "/project/path" "/mock/home"
      fsPermAll).2.1 "/mock/home/.bitx/rules/rules.md" "EACCES" rfl rfl
  · exact (c2_read_error_policy "rules/rules.md" "/project/path" "/mock/home"
      fsPermAll).2.2.1 "EACCES" rfl rfl
  · exact (c2_read_error_policy "rules/rules.md" "/project/path" "/mock/home"
      fsProjectPerm).2.2.2 "EACCES" none rfl rfl rfl

/-- C10: merge participation is decided by truthiness, not presence -
a present-but-empty global text contributes neither content nor the
annotation label, and a present-but-empty project text leaves merged
equal to the global text alone. -/
theorem c10_truthiness_not_presence (relativePath cwd homedir : String)
    (fs : FileSystem) (g p : String)
    (hg : fs (joinPath (getGlobalRooDirectory homedir) relativePath) = .ok g)
    (hp : fs (joinPath (getProjectRooDirectoryForCwd cwd) relativePath) =
      .ok p) :
    (g = "" → loadConfiguration relativePath cwd homedir fs =
      .ok { global := some "", project := some p, merged := p })
    ∧ (p = "" → loadConfiguration relativePath cwd homedir fs =
      .ok { global := some g, project := some "", merged := g }) := by
  have hgr : readFileIfExists fs
      (joinPath (getGlobalRooDirectory homedir) relativePath) =
      .ok (some g) := by
    simp [readFileIfExists, hg]
  have hpr : readFileIfExists fs
      (joinPath (getProjectRooDirectoryForCwd cwd) relativePath) =
      .ok (some p) := by
    simp [readFileIfExists, hp]
  constructor
  · intro hge
    subst hge
    by_cases hpe : p = ""
    · subst hpe
      simp [loadConfiguration, hgr, hpr, truthyOpt, truthy]
    · simp [loadConfiguration, hgr, hpr, truthyOpt, truthy, hpe]
  · intro hpe
    subst hpe
    by_cases hge : g = ""
    · subst hge
      simp [loadConfiguration, hgr, hpr, truthyOpt, truthy]
    · simp [loadConfiguration, hgr, hpr, truthyOpt, truthy, hge]

/-- C10 witness: an empty global text with a nonempty project text
yields the project text alone; a nonempty global text with an empty
project text yields the global text alone. -/
theorem c10_truthiness_witness :
    loadConfiguration "rules/rules.md" "/project/path" "/mock/home"
        fsEmptyGlobal =
      Except.ok { global := some "", project := some "project content",
                  merged := "project content" }
    ∧ loadConfiguration "rules/rules.md" "/project/path" "/mock/home"
        fsEmptyProject =
      Except.ok { global := some "global content", project := some "",
                  merged := "global content" } :=
  ⟨(c10_truthiness_not_presence "rules/rules.md" "/project/path" "/mock/home"
      fsEmptyGlobal "" "project content" rfl rfl).1 rfl,
   (c10_truthiness_not_presence "rules/rules.md" "/project/path" "/mock/home"
      fsEmptyProject "global content" "" rfl rfl).2 rfl⟩

/-- Auxiliary: separator normalization distributes over list append. -/
theorem normalizeSepsL_append (a b : List Char) :
    normalizeSepsL (a ++ b) = normalizeSepsL a ++ normalizeSepsL b :=
  List.map_append normChar a b

/-- Auxiliary: the data of the absolute concatenation root ++ "/" ++ p
is the root data, a slash, and the path data. -/
theorem data_abs_concat (w p : String) :
    (w ++ "/" ++ p).data = w.data ++ ('/' :: p.data) := by
  rw [String.data_append, String.data_append, List.append_assoc]
  rfl

/-- Auxiliary: rewriting an absolute path of the form
root-slash-remainder to root-relative form yields the remainder. -/
theorem relativizeToRootL_strip (ncwd np : List Char)
    (habs : isAbsoluteL ncwd = true) :
    relativizeToRootL ncwd (ncwd ++ '/' :: np) = np := by
  rcases ncwd with _ | ⟨c, t⟩
  · simp [isAbsoluteL] at habs
  · have hc : c = '/' := by
      simpa [isAbsoluteL] using habs
    subst hc
    have hassoc : ('/' :: t) ++ '/' :: np = (('/' :: t) ++ ['/']) ++ np := by
      simp
    rw [relativizeToRootL, hassoc]
    have habs2 : isAbsoluteL ((('/' :: t) ++ ['/']) ++ np) = true := by
      simp [isAbsoluteL]
    have hpre : (('/' :: t) ++ ['/']).isPrefixOf ((('/' :: t) ++ ['/']) ++ np) =
        true :=
      List.isPrefixOf_iff_prefix.mpr (List.prefix_append _ _)
    rw [habs2, hpre]
    simp only [Bool.and_self, if_true]
    have hlen : ('/' :: t).length + 1 = (('/' :: t) ++ ['/']).length := by
      simp
    rw [hlen, List.drop_left]

/-- C5: for a relative path p that matches a protection pattern
matching at any depth, classifying the absolute path w ++ "/" ++ p
under the workspace root w gives the same answer as classifying p
itself (the absolute form is rewritten to root-relative form after
separator normalization). -/
theorem c5_absolute_agrees_with_relative (w p : String)
    (hw : isAbsoluteL (normalizeSepsL w.data) = true)
    (hp : isAbsoluteL (normalizeSepsL p.data) = false)
    (_hm : ∃ pat ∈ protectedPatterns,
      matchesPatternL pat.data (normalizeSepsL p.data) = true) :
    isWriteProtected w (w ++ "/" ++ p) = isWriteProtected w p := by
  have habs : normalizeSepsL (w ++ "/" ++ p).data =
      normalizeSepsL w.data ++ '/' :: normalizeSepsL p.data := by
    rw [data_abs_concat, normalizeSepsL_append]
    have : normalizeSepsL ('/' :: p.data) = '/' :: normalizeSepsL p.data := by
      simp [normalizeSepsL, normChar]
    rw [this]
  have hrel1 : relativizeToRootL (normalizeSepsL w.data)
      (normalizeSepsL (w ++ "/" ++ p).data) = normalizeSepsL p.data := by
    rw [habs]
    exact relativizeToRootL_strip _ _ hw
  have hrel2 : relativizeToRootL (normalizeSepsL w.data)
      (normalizeSepsL p.data) = normalizeSepsL p.data := by
    rw [relativizeToRootL, hp]
    simp
  rw [isWriteProtected, isWriteProtected, hrel1, hrel2]

/-- C5 witness: the ignore-file name under the workspace root
classifies the same as the bare relative name (both protected). -/
theorem c5_absolute_agrees_witness :
    isWriteProtected "/test/workspace"
        ("/test/workspace" ++ "/" ++ ".rooignore") =
      isWriteProtected "/test/workspace" ".rooignore" :=
  c5_absolute_agrees_with_relative "/test/workspace" ".rooignore"
    (by decide) (by decide) ⟨".rooignore", by decide, by decide⟩
